import Mathlib

/-!
# Verification of the anchoring-ai CRUD backend

Shallow embedding of the application and file API handlers of
`src/back-end/src/api/app_api_v1.py`, `src/back-end/src/api/file_api_v1.py`
and of the shared projection `src/back-end/src/model/base.py` (`DbBase.as_dict`).

The relational store is modelled as a list of records; an SQLAlchemy
`query.filter(...).first()` becomes `List.find?` with the same predicate,
`ORDER BY` becomes an insertion sort (`sortLe`) with the corresponding
comparison, committing a mutation of a fetched ORM object becomes replacing
the first matching record in the list, and `offset/limit` become
`List.drop/List.take`.
Request timestamps (`datetime.utcnow()`) are passed in as a `now : Nat`
parameter, and generated UUIDs as explicit fresh-id parameters.
External collaborators (the pandas dataframe library, werkzeug's
`secure_filename`, the downstream Chroma vector-index endpoint) are modelled
at their call sites as noted on each definition.
-/

/-! ## Application data model (`model/application.py`, columns as used by the API) -/

structure AppRecord where
  id : String
  app_name : String
  created_by : String
  tags : Option String
  description : Option String
  published : Bool
  chain : Option String
  created_at : Nat
  updated_at : Nat
  deleted_at : Option Nat
deriving DecidableEq, Repr

/-- The JSON body accepted by `POST /v1/app/modify`: every field is read with
`data.get(key, None)` (for `published`, `data.get('published', False)`), so each
is optional. -/
structure ModifyRequest where
  id : Option String := none
  app_name : Option String := none
  tags : Option String := none
  description : Option String := none
  published : Option Bool := none
  chain : Option String := none
deriving DecidableEq, Repr

/-- Outcome of `modify_application`.  `attributeError` models the uncaught
Python `AttributeError` raised when the handler dereferences the result of a
query that returned `None`; it surfaces as a generic 500 server error, not as
one of the handler's own responses. -/
inductive ModifyStatus
  | ok (a : AppRecord)
  | badRequest (msg : String)
  | attributeError
deriving DecidableEq, Repr

/-- The filter used by the update branch of `modify_application` (and by
delete/publish): `DbAppBuild.id == app_id, DbAppBuild.deleted_at.is_(None),
DbAppBuild.created_by == g.current_user_id`. -/
def ownedLive (u appId : String) (a : AppRecord) : Bool :=
  a.id == appId && a.deleted_at.isNone && a.created_by == u

/-- Committing the mutation of the single ORM object returned by `.first()`:
the first record matching the query predicate is replaced. -/
def replaceFirst (p : α → Bool) (f : α → α) : List α → List α
  | [] => []
  | a :: as => if p a then f a :: as else a :: replaceFirst p f as

/-- `POST /v1/app/modify` (`modify_application` in `app_api_v1.py`).

The update branch mirrors the source's statement order: the record is fetched
with `.first()`, then `app_build.updated_at = datetime.utcnow()` and
`app_build.published = published` are executed, and only afterwards comes the
`if app_build is None` check.  When the query returned `None` the attribute
assignment raises `AttributeError`, so the `None` check is unreachable on that
path: the embedding returns `ModifyStatus.attributeError` there.
For the create branch, the `DbAppBuild` constructor's audit timestamps are
modelled as `created_at = updated_at = now`. -/
def modify_application (u freshId : String) (now : Nat)
    (req : ModifyRequest) (store : List AppRecord) : ModifyStatus × List AppRecord :=
  let isNew := req.id.getD "" == ""
  let published := req.published.getD false
  if isNew then
    match req.app_name with
    | none => (ModifyStatus.badRequest "Required fields missing!", store)
    | some name =>
      let a : AppRecord :=
        { id := freshId, app_name := name, created_by := u,
          tags := req.tags, description := req.description,
          published := published, chain := req.chain,
          created_at := now, updated_at := now, deleted_at := none }
      (ModifyStatus.ok a, store ++ [a])
  else
    let appId := req.id.getD ""
    match store.find? (ownedLive u appId) with
    | none => (ModifyStatus.attributeError, store)
    | some r =>
      let r1 := { r with updated_at := now, published := published }
      let r2 := { r1 with app_name := req.app_name.getD r1.app_name }
      let r3 := { r2 with tags := req.tags.or r2.tags }
      let r4 := { r3 with description := req.description.or r3.description }
      let r5 := { r4 with chain := req.chain.or r4.chain }
      (ModifyStatus.ok r5, replaceFirst (ownedLive u appId) (fun _ => r5) store)

/-! ## Application list and load (`get_app_list`, `get_application`) -/

/-- Query parameters of `GET /v1/app/list` with the handler's defaults. -/
structure AppListParams where
  page : Nat := 1
  size : Nat := 20
  app_name : Option String := none
  created_by : Option String := none
  tags : Option String := none

/-- The visibility filter shared by the application and file queries:
`deleted_at.is_(None)` and (`created_by == g.current_user_id` or
`published.is_(True)`). -/
def visibleApp (u : String) (a : AppRecord) : Bool :=
  a.deleted_at.isNone && (a.created_by == u || a.published)

/-- SQL `LIKE '%needle%'` on a text column. -/
def substrB (needle hay : String) : Bool :=
  decide (List.IsInfix needle.toList hay.toList)

/-- Python's `c in s` membership test on a decoded string. -/
def strContains (s : String) (c : Char) : Bool :=
  s.data.contains c

/-- Insertion step of the sort modelling SQL `ORDER BY` (kept structurally
recursive so that concrete queries evaluate). -/
def insertLe (le : α → α → Bool) (a : α) : List α → List α
  | [] => [a]
  | b :: bs => if le a b then a :: b :: bs else b :: insertLe le a bs

/-- Sort modelling SQL `ORDER BY` with comparison `le`. -/
def sortLe (le : α → α → Bool) : List α → List α
  | [] => []
  | a :: as => insertLe le a (sortLe le as)

/-- The full WHERE clause of the list query: visibility plus the optional
`app_name`/`created_by` substring filters and the `tags IN (...)` filter
(an SQL `NULL IN (...)` is not satisfied, hence `false` for a `none` tag). -/
def appQueryMatch (u : String) (p : AppListParams) (a : AppRecord) : Bool :=
  visibleApp u a
    && (match p.app_name with
        | none => true
        | some s => substrB s a.app_name)
    && (match p.created_by with
        | none => true
        | some s => substrB s a.created_by)
    && (match p.tags with
        | none => true
        | some s =>
          match a.tags with
          | some t => (s.splitOn ",").contains t
          | none => false)

/-- The rank computed by the `case` expression in the `order_by`: 1 for the
caller's own records, 2 for everyone else's. -/
def appRank (u : String) (a : AppRecord) : Nat :=
  if a.created_by = u then 1 else 2

/-- The `ORDER BY` comparison: ascending rank, then `updated_at` descending. -/
def appLe (u : String) (a b : AppRecord) : Bool :=
  decide (appRank u a < appRank u b)
    || (appRank u a == appRank u b && decide (b.updated_at ≤ a.updated_at))

/-- `GET /v1/app/list` (`get_app_list`).  Returns the page of records together
with `total_pages = ceil(count / size)`.  The response maps each record to a
dictionary of a fixed subset of its fields; the embedding returns the records
themselves.  In the source the `order_by` is attached before the optional
filters, which in SQL composes the same query as filtering first. -/
def get_app_list (u : String) (p : AppListParams) (store : List AppRecord) :
    List AppRecord × Nat :=
  let matching := store.filter (appQueryMatch u p)
  let sorted := sortLe (appLe u) matching
  let total_pages := (matching.length + p.size - 1) / p.size
  ((sorted.drop ((p.page - 1) * p.size)).take p.size, total_pages)

/-- Outcome of `GET /v1/app/load/<app_id>`: the serialized record, or the
400 "No application found with given ID." response. -/
inductive LoadAppResult
  | ok (a : AppRecord)
  | notFound
deriving DecidableEq, Repr

/-- `GET /v1/app/load/<app_id>` (`get_application`).  The response body is
`as_dict` of the record; the embedding returns the record itself. -/
def get_application (u : String) (store : List AppRecord) (appId : String) :
    LoadAppResult :=
  match store.find? (fun a => a.id == appId && visibleApp u a) with
  | some a => LoadAppResult.ok a
  | none => LoadAppResult.notFound

/-! ## File data model (`model/file.py`, columns as used by the API) -/

/-- The structured `content` column: row records for tables (pandas
`to_dict(orient="records")`, values kept in their textual form), or the
`{"text": ...}` wrapper for plain text. -/
inductive FileContent
  | table (records : List (List (String × String)))
  | text (t : String)
deriving DecidableEq, Repr

structure FileRecord where
  id : String
  name : String
  type : String
  uploaded_by : String
  uploaded_at : Nat
  size : Nat
  content : FileContent
  raw_content : String
  published : Bool
  deleted_at : Option Nat
deriving DecidableEq, Repr

def FileContent.recordsOf : FileContent → List (List (String × String))
  | FileContent.table rs => rs
  | FileContent.text _ => []

/-! ## File type detection and CSV parsing (`determine_file_type_and_content`)

The source delegates tabular parsing to the pandas library
(`pd.read_csv(file, sep=delimiter)` followed by `to_dict(orient="records")`),
an external dependency.  It is modelled as a plain delimiter-split parse:
the first non-blank line is the header, every later non-blank line is split on
the delimiter and zipped with the header (pandas skips blank lines by default,
hence the filter); cell values stay strings, standing for pandas' values
modulo its type coercion. -/

/-- `file.readline().decode('utf-8')` as far as the delimiter test needs it:
the part of the content before the first newline. -/
def firstLine (content : String) : String :=
  String.mk (content.data.takeWhile (fun c => c != '\n'))

/-- Splitting a character list at every occurrence of `c` (Python
`str.split(c)` over the decoded characters). -/
def splitOnCharAux (c : Char) (acc : List Char) : List Char → List (List Char)
  | [] => [acc.reverse]
  | x :: xs =>
    if x = c then acc.reverse :: splitOnCharAux c [] xs
    else splitOnCharAux c (x :: acc) xs

def splitStr (s : String) (c : Char) : List String :=
  (splitOnCharAux c [] s.data).map String.mk

def csvLines (content : String) : List String :=
  (splitStr content '\n').filter (fun l => l != "")

/-- Model of `pd.read_csv(file, sep=delim).to_dict(orient="records")`. -/
def read_csv (content : String) (delim : Char) : List (List (String × String)) :=
  match csvLines content with
  | [] => []
  | header :: rows =>
    let hs := splitStr header delim
    rows.map (fun row => hs.zip (splitStr row delim))

/-- `determine_file_type_and_content` of `file_api_v1.py`; the returned `Nat`
is `df.shape[0]` for tables (the number of data rows) and 0 otherwise. -/
def determine_file_type_and_content (content : String) :
    String × FileContent × Nat :=
  let fl := firstLine content
  if strContains fl '\t' || strContains fl ',' then
    let delimiter := if strContains fl '\t' then '\t' else ','
    let records := read_csv content delimiter
    ("Table", FileContent.table records, records.length)
  else
    ("Plain Text", FileContent.text content, 0)

/-! ## File upload (`upload_file`) -/

/-- `ALLOWED_EXTENSIONS` membership test (`allowed_file` in the source):
the part of the filename after its last dot, lowercased. -/
def extAfterLastDot (s : String) : String :=
  List.asString (s.toList.reverse.takeWhile (fun c => c != '.')).reverse

/-- `str.lower()` over the decoded characters. -/
def lowerStr (s : String) : String :=
  String.mk (s.data.map Char.toLower)

def allowed_file (filename : String) : Bool :=
  strContains filename '.' && ["txt", "tsv", "csv"].contains (lowerStr (extAfterLastDot filename))

/-- werkzeug's `secure_filename` is an external dependency; it only sanitizes
the display name and no claim depends on it, so it is modelled as the
identity. -/
def secure_filename (s : String) : String := s

/-- A multipart upload request: whether the `file` part is present, its
filename, and its content (bytes, modelled as the UTF-8 string they decode
to; `len(content)` is its UTF-8 byte size). -/
structure UploadRequest where
  hasFile : Bool
  filename : String
  content : String
deriving DecidableEq, Repr

inductive UploadStatus
  | ok (fileId : String)
  | err (msg : String)
deriving DecidableEq, Repr

/-- `POST /v1/file/upload` (`upload_file`).  `uploadedBy` is
`g.current_user_id`, which the handler itself re-checks against `None`. -/
def upload_file (uploadedBy : Option String) (fileId : String) (now : Nat)
    (req : UploadRequest) (store : List FileRecord) : UploadStatus × List FileRecord :=
  if !req.hasFile then (UploadStatus.err "No file found", store)
  else if req.filename == "" then (UploadStatus.err "No selected file", store)
  else
    match uploadedBy with
    | none => (UploadStatus.err "No user is related to this file", store)
    | some u =>
      if allowed_file req.filename then
        let size := req.content.utf8ByteSize
        if size > 1024 * 1024 * 15 then
          (UploadStatus.err "Only files smaller than 15MB are supported.", store)
        else
          let res := determine_file_type_and_content req.content
          if res.1 == "Table" && res.2.2 > 3000 then
            (UploadStatus.err "Only tables with less than 3000 rows are supported.", store)
          else
            let f : FileRecord :=
              { id := fileId, name := secure_filename req.filename, type := res.1,
                uploaded_by := u, uploaded_at := now, size := size,
                content := res.2.1, raw_content := req.content,
                published := false, deleted_at := none }
            (UploadStatus.ok fileId, store ++ [f])
      else (UploadStatus.err "Invalid file type", store)

/-! ## File list, load, download, delete -/

/-- Query parameters of `GET /v1/file/list` with the handler's defaults. -/
structure FileListParams where
  page : Nat := 1
  size : Nat := 20
  uploaded_by : Option String := none

/-- The visibility filter of the file queries: `deleted_at.is_(None)` and
(`uploaded_by == g.current_user_id` or `published == True`). -/
def visibleFile (u : String) (f : FileRecord) : Bool :=
  f.deleted_at.isNone && (f.uploaded_by == u || f.published)

/-- WHERE clause of the file list query: visibility plus the optional exact
uploader filter. -/
def fileQueryMatch (u : String) (p : FileListParams) (f : FileRecord) : Bool :=
  visibleFile u f
    && (match p.uploaded_by with
        | none => true
        | some v => f.uploaded_by == v)

/-- `ORDER BY uploaded_at DESC`. -/
def fileLe (a b : FileRecord) : Bool :=
  decide (b.uploaded_at ≤ a.uploaded_at)

/-- `GET /v1/file/list` (`get_uploaded_files`).  The response projects each
record through `as_dict(exclude=['content', 'raw_content'])`; the embedding
returns the records themselves. -/
def get_uploaded_files (u : String) (p : FileListParams) (store : List FileRecord) :
    List FileRecord × Nat :=
  let matching := store.filter (fileQueryMatch u p)
  let sorted := sortLe fileLe matching
  ((sorted.drop ((p.page - 1) * p.size)).take p.size,
   (matching.length + p.size - 1) / p.size)

/-- Model of `pd.json_normalize(content_list)` followed by
`df.to_json(orient='columns')` in `load_file`: a column per key of the
records (for the rectangular data produced at upload, the keys of the first
record), each mapping row index to that record's value for the key (`none`
when the record lacks the key, pandas' NaN/null). -/
def to_columns (records : List (List (String × String))) :
    List (String × List (Nat × Option String)) :=
  match records with
  | [] => []
  | r0 :: _ =>
    (r0.map Prod.fst).map
      (fun h => (h, records.enum.map (fun p => (p.1, List.lookup h p.2))))

/-- Accessor into the columnar serialization: the entry of column `h` at row
index `i` (outer `none`: no such column or row; inner `none`: null cell). -/
def columnCell (cols : List (String × List (Nat × Option String)))
    (h : String) (i : Nat) : Option (Option String) :=
  (List.lookup h cols).bind (fun col => List.lookup i col)

/-- What `load_file` serves as `content`: the columnar re-serialization for
tables, the stored content unchanged otherwise. -/
inductive ServedContent
  | columns (cols : List (String × List (Nat × Option String)))
  | passthrough (c : FileContent)
deriving DecidableEq, Repr

inductive LoadFileResult
  | ok (f : FileRecord) (content : ServedContent)
  | notFound
deriving DecidableEq, Repr

/-- `GET /v1/file/load/<file_id>` (`load_file`).  The response body is
`as_dict(exclude=['raw_content'])` with `content` rewritten for tables; the
embedding returns the record plus the served content. -/
def load_file (u : String) (store : List FileRecord) (fileId : String) :
    LoadFileResult :=
  match store.find? (fun f => f.id == fileId && visibleFile u f) with
  | none => LoadFileResult.notFound
  | some f =>
    if f.type == "Table" then
      LoadFileResult.ok f (ServedContent.columns (to_columns f.content.recordsOf))
    else
      LoadFileResult.ok f (ServedContent.passthrough f.content)

inductive DownloadResult
  | ok (bytes downloadName xFileName : String)
  | notFound
  | forbidden
deriving DecidableEq, Repr

/-- `GET /v1/file/download/<file_id>` (`download_file`):
`filter_by(id=file_id, deleted_at=None).first()`, 404 when absent, 403 when
the caller is not the uploader, otherwise the raw bytes as an attachment
named after the file, with the same name in the `X-File-Name` header. -/
def download_file (u : String) (store : List FileRecord) (fileId : String) :
    DownloadResult :=
  match store.find? (fun f => f.id == fileId && f.deleted_at.isNone) with
  | none => DownloadResult.notFound
  | some f =>
    if f.uploaded_by != u then DownloadResult.forbidden
    else DownloadResult.ok f.raw_content f.name f.name

/-- Outcome of the downstream `requests.delete(.../delete_chroma/<id>)` call,
an external collaborator: 2xx, non-2xx status, or a raised exception. -/
inductive ChromaOutcome
  | success
  | httpFailure
  | exn
deriving DecidableEq, Repr

inductive DeleteStatus
  | ok
  | badRequest
  | forbidden
  | serverError
deriving DecidableEq, Repr

/-- `DELETE /v1/file/delete/<file_id>` (`delete_file`): primary-key lookup
(`query.get`), 400 when absent or already soft-deleted, 403 when the caller
is not the uploader; for `"Embedded Text"` files the downstream vector-index
deletion must succeed first (non-ok status or exception both answer 500 and
leave the store untouched); only then is `deleted_at` set and committed. -/
def delete_file (u : String) (now : Nat) (chroma : ChromaOutcome)
    (store : List FileRecord) (fileId : String) : DeleteStatus × List FileRecord :=
  if fileId == "" then (DeleteStatus.badRequest, store)
  else
    match store.find? (fun f => f.id == fileId) with
    | none => (DeleteStatus.badRequest, store)
    | some f =>
      if f.deleted_at.isSome then (DeleteStatus.badRequest, store)
      else if f.uploaded_by != u then (DeleteStatus.forbidden, store)
      else
        let committed :=
          replaceFirst (fun g => g.id == fileId)
            (fun g => { g with deleted_at := some now }) store
        if f.type == "Embedded Text" then
          match chroma with
          | ChromaOutcome.httpFailure => (DeleteStatus.serverError, store)
          | ChromaOutcome.exn => (DeleteStatus.serverError, store)
          | ChromaOutcome.success => (DeleteStatus.ok, committed)
        else (DeleteStatus.ok, committed)

/-! ## Shared response projection (`DbBase.as_dict`, `model/base.py`) -/

/-- A column descriptor: its name and the string form of its SQL type
(the source compares `str(c.type) == 'JSON'`). -/
structure DbColumn where
  name : String
  ctype : String
deriving DecidableEq, Repr

/-- A Python value held in a column. -/
inductive PyVal
  | pyStr (s : String)
  | pyInt (n : Int)
  | pyBool (b : Bool)
  | pyJson (j : String)
deriving DecidableEq, Repr

/-- Python `str()` of a column value (JSON columns are never passed through
it by `as_dict`; for them the serialized document stands for itself). -/
def pyStrOf : PyVal → String
  | PyVal.pyStr s => s
  | PyVal.pyInt n => toString n
  | PyVal.pyBool b => if b then "True" else "False"
  | PyVal.pyJson j => j

/-- An entry of the produced dictionary: a JSON column's value passed through
unchanged, or the `str()` form of any other column's value. -/
inductive DictEntry
  | jsonVal (v : PyVal)
  | strVal (s : String)
deriving DecidableEq, Repr

/-- `DbBase.as_dict`: one entry per column whose value is not `None`, keyed by
column name; JSON-typed columns keep their value, all others are stringified.
A row is the list of the table's columns with their (possibly null) values. -/
def as_dict (row : List (DbColumn × Option PyVal)) : List (String × DictEntry) :=
  row.filterMap
    (fun p => p.2.map
      (fun v => (p.1.name,
        if p.1.ctype == "JSON" then DictEntry.jsonVal v
        else DictEntry.strVal (pyStrOf v))))

/-! ## Helper lemmas -/

/-- `String.utf8ByteSize` of `n` copies of an ASCII character is `n` bytes;
used to produce a concrete over-limit upload. -/
theorem utf8ByteSize_replicate_a (n : Nat) :
    (String.mk (List.replicate n 'a')).utf8ByteSize = n := by
  have h : ∀ m : Nat, String.utf8Len (List.replicate m 'a') = m := by
    intro m
    induction m with
    | zero => rfl
    | succ k ih =>
      rw [List.replicate, String.utf8Len_cons, ih]
      have hsz : Char.utf8Size 'a' = 1 := by decide
      omega
  simpa [String.utf8ByteSize] using h n

/-- `find?` with a predicate that pins down a key returns any member that
satisfies the predicate, when keys are distinct in the list. -/
theorem find?_of_nodup_key {α : Type} (key : α → String) (k : String) (p : α → Bool)
    (hpk : ∀ b, p b = true → key b = k) (l : List α) (hnd : (l.map key).Nodup)
    (a : α) (ha : a ∈ l) (hpa : p a = true) : l.find? p = some a := by
  induction l with
  | nil => cases ha
  | cons b t ih =>
    rw [List.map_cons] at hnd
    obtain ⟨hbk, hndt⟩ := List.nodup_cons.mp hnd
    rcases List.mem_cons.mp ha with rfl | hat
    · exact List.find?_cons_of_pos _ hpa
    · cases hb : p b with
      | false =>
        rw [List.find?_cons_of_neg _ (by simp [hb])]
        exact ih hndt hat
      | true =>
        exfalso
        have h1 : key b = key a := (hpk b hb).trans (hpk a hpa).symm
        exact hbk (h1 ▸ List.mem_map_of_mem key hat)

/-! ## Claim theorems -/

/-- C1: the claim says a modify request with a non-empty id that matches no
non-deleted owned application fails with a 400 response.  In the source the
`None` check sits below `app_build.updated_at = ...`, so the handler instead
raises `AttributeError` (a generic 500); the store is left unchanged.  This
theorem evaluates the embedded handler at such a request. -/
theorem modify_missing_record_crashes :
    modify_application "u" "fresh" 0 { id := some "a" } [] =
      (ModifyStatus.attributeError, []) := by rfl

/-- C2: updating an existing owned application overwrites `app_name`, `tags`,
`description` and `chain` only when present in the request, always overwrites
`published` (defaulting to `false`) and `updated_at`, and leaves `id`,
`created_by`, `created_at` and `deleted_at` unchanged; no other record is
touched. -/
theorem modify_partial_update (u freshId : String) (now : Nat)
    (req : ModifyRequest) (store : List AppRecord) (appId : String) (r : AppRecord)
    (hid : req.id = some appId) (hne : appId ≠ "")
    (hfind : store.find? (ownedLive u appId) = some r) :
    modify_application u freshId now req store =
      (ModifyStatus.ok
        { r with
          app_name := req.app_name.getD r.app_name,
          tags := req.tags.or r.tags,
          description := req.description.or r.description,
          chain := req.chain.or r.chain,
          published := req.published.getD false,
          updated_at := now },
       replaceFirst (ownedLive u appId)
         (fun _ =>
           { r with
             app_name := req.app_name.getD r.app_name,
             tags := req.tags.or r.tags,
             description := req.description.or r.description,
             chain := req.chain.or r.chain,
             published := req.published.getD false,
             updated_at := now }) store) := by
  have hbeq : (appId == "") = false := by simpa using hne
  simp [modify_application, hid, hbeq, hfind]

theorem modify_partial_update_witness :
    modify_application "u" "f" 5 { id := some "a", description := some "d" }
        [⟨"a", "n", "u", none, none, false, none, 0, 0, none⟩] =
      (ModifyStatus.ok ⟨"a", "n", "u", none, some "d", false, none, 0, 5, none⟩,
       [⟨"a", "n", "u", none, some "d", false, none, 0, 5, none⟩]) := by
  have h := modify_partial_update "u" "f" 5
    { id := some "a", description := some "d" }
    [⟨"a", "n", "u", none, none, false, none, 0, 0, none⟩] "a"
    ⟨"a", "n", "u", none, none, false, none, 0, 0, none⟩
    rfl (by decide) (by decide)
  simpa using h

/-- C3: deleting an owned, non-deleted "Embedded Text" file answers 500 and
leaves the store (in particular the file's `deleted_at`) unchanged whenever
the downstream vector-index deletion returns a non-ok status or raises; the
soft-delete is committed only when the downstream call succeeds. -/
theorem delete_embedded_text_requires_chroma (u : String) (now : Nat)
    (chroma : ChromaOutcome) (store : List FileRecord) (fileId : String)
    (f : FileRecord) (hfid : fileId ≠ "")
    (hfind : store.find? (fun g => g.id == fileId) = some f)
    (hdel : f.deleted_at = none) (hown : f.uploaded_by = u)
    (htype : f.type = "Embedded Text") :
    (chroma ≠ ChromaOutcome.success →
      delete_file u now chroma store fileId = (DeleteStatus.serverError, store)) ∧
    (chroma = ChromaOutcome.success →
      delete_file u now chroma store fileId =
        (DeleteStatus.ok,
         replaceFirst (fun g => g.id == fileId)
           (fun g => { g with deleted_at := some now }) store)) := by
  have hbeq : (fileId == "") = false := by simpa using hfid
  constructor
  · intro hc
    cases chroma with
    | success => exact absurd rfl hc
    | httpFailure => simp [delete_file, hbeq, hfind, hdel, hown, htype]
    | exn => simp [delete_file, hbeq, hfind, hdel, hown, htype]
  · rintro rfl
    simp [delete_file, hbeq, hfind, hdel, hown, htype]

theorem delete_embedded_text_requires_chroma_witness :
    delete_file "u" 9 ChromaOutcome.exn
        [⟨"x", "e.txt", "Embedded Text", "u", 1, 3, FileContent.text "t", "t", false, none⟩]
        "x" =
      (DeleteStatus.serverError,
       [⟨"x", "e.txt", "Embedded Text", "u", 1, 3, FileContent.text "t", "t", false, none⟩]) := by
  have h := delete_embedded_text_requires_chroma "u" 9 ChromaOutcome.exn
    [⟨"x", "e.txt", "Embedded Text", "u", 1, 3, FileContent.text "t", "t", false, none⟩]
    "x" ⟨"x", "e.txt", "Embedded Text", "u", 1, 3, FileContent.text "t", "t", false, none⟩
    (by decide) (by decide) rfl rfl rfl
  exact h.1 (by decide)

/-- C4: an upload whose content exceeds 15 MiB, or whose content is typed
Table with more than 3000 parsed rows, is answered with a 400 error response
and the file store is left unchanged. -/
theorem upload_rejects_oversize_and_overlong (uploadedBy : Option String)
    (fileId : String) (now : Nat) (req : UploadRequest) (store : List FileRecord)
    (hbad : req.content.utf8ByteSize > 1024 * 1024 * 15 ∨
      ((determine_file_type_and_content req.content).1 = "Table" ∧
        (determine_file_type_and_content req.content).2.2 > 3000)) :
    ∃ msg, upload_file uploadedBy fileId now req store = (UploadStatus.err msg, store) := by
  unfold upload_file
  repeat' split
  any_goals exact ⟨_, rfl⟩
  dsimp only
  repeat' split
  any_goals exact ⟨_, rfl⟩
  rename_i hsize hrow
  exfalso
  rcases hbad with hbig | ⟨htab, hcount⟩
  · exact hsize hbig
  · apply hrow
    simp only [Bool.and_eq_true, beq_iff_eq, decide_eq_true_eq]
    exact ⟨htab, hcount⟩

theorem upload_rejects_oversize_witness :
    ∃ msg,
      upload_file (some "u") "fid" 0
        ⟨true, "big.txt", String.mk (List.replicate 15728641 'a')⟩ [] =
        (UploadStatus.err msg, []) := by
  apply upload_rejects_oversize_and_overlong
  apply Or.inl
  rw [utf8ByteSize_replicate_a]
  decide

/-- C6: the stored type and structured content are a function of the content
alone; a tab or comma on the first line makes the file a Table parsed with
the detected delimiter (tab wins over comma) into row records and counted by
its data rows, and otherwise the file is Plain Text with the decoded text
wrapped as the single `text` field. -/
theorem type_detection_from_content (content : String) :
    ((determine_file_type_and_content content).1 = "Table" ↔
      (strContains (firstLine content) '\t' = true ∨
        strContains (firstLine content) ',' = true)) ∧
    (strContains (firstLine content) '\t' = true →
      determine_file_type_and_content content =
        ("Table", FileContent.table (read_csv content '\t'),
          (read_csv content '\t').length)) ∧
    (strContains (firstLine content) '\t' = false →
      strContains (firstLine content) ',' = true →
      determine_file_type_and_content content =
        ("Table", FileContent.table (read_csv content ','),
          (read_csv content ',').length)) ∧
    (strContains (firstLine content) '\t' = false →
      strContains (firstLine content) ',' = false →
      determine_file_type_and_content content =
        ("Plain Text", FileContent.text content, 0)) := by
  unfold determine_file_type_and_content
  cases ht : strContains (firstLine content) '\t' <;>
    cases hc : strContains (firstLine content) ',' <;>
      simp [ht, hc]

theorem type_detection_from_content_witness :
    determine_file_type_and_content "x\ty\n1\t2" =
      ("Table", FileContent.table (read_csv "x\ty\n1\t2" '\t'),
        (read_csv "x\ty\n1\t2" '\t').length) :=
  (type_detection_from_content "x\ty\n1\t2").2.1 (by decide)

/-- C7: downloading a non-deleted file serves the raw stored bytes, with the
original filename both as the attachment name and in the `X-File-Name`
header, exactly when the requester is the uploader; any other requester gets
403 regardless of the published flag, and a missing (or soft-deleted) id
gets 404. -/
theorem download_owner_only (u : String) (store : List FileRecord) (fileId : String)
    (hnd : (store.map FileRecord.id).Nodup) :
    (∀ f : FileRecord, f ∈ store → f.id = fileId → f.deleted_at = none →
      download_file u store fileId =
        (if f.uploaded_by = u then DownloadResult.ok f.raw_content f.name f.name
          else DownloadResult.forbidden)) ∧
    ((∀ f : FileRecord, f ∈ store → ¬(f.id = fileId ∧ f.deleted_at = none)) →
      download_file u store fileId = DownloadResult.notFound) := by
  constructor
  · intro f hf hid hdel
    have hfind :
        store.find? (fun g => g.id == fileId && g.deleted_at.isNone) = some f := by
      apply find?_of_nodup_key FileRecord.id fileId _ _ store hnd f hf
      · simp [hid, hdel]
      · intro b hb
        simp only [Bool.and_eq_true, beq_iff_eq] at hb
        exact hb.1
    by_cases ho : f.uploaded_by = u
    · simp [download_file, hfind, ho]
    · simp [download_file, hfind, ho]
  · intro hnone
    have hfind :
        store.find? (fun g => g.id == fileId && g.deleted_at.isNone) = none := by
      rw [List.find?_eq_none]
      intro f hf
      simp only [Bool.and_eq_true, beq_iff_eq, Option.isNone_iff_eq_none]
      intro hcontra
      exact hnone f hf hcontra
    simp [download_file, hfind]

theorem download_owner_only_witness :
    download_file "v" [⟨"x", "d.csv", "Table", "u", 1, 3, FileContent.text "t", "a,b", true, none⟩] "x" =
      DownloadResult.forbidden := by
  have h := (download_owner_only "v"
    [⟨"x", "d.csv", "Table", "u", 1, 3, FileContent.text "t", "a,b", true, none⟩] "x"
    (by decide)).1
    ⟨"x", "d.csv", "Table", "u", 1, 3, FileContent.text "t", "a,b", true, none⟩
    (by decide) rfl rfl
  simpa using h

/-- A successful association-list lookup returns a member of the list. -/
theorem mem_of_lookup_some {α β : Type} [BEq α] [LawfulBEq α]
    (l : List (α × β)) (a : α) (e : β) (h : l.lookup a = some e) : (a, e) ∈ l := by
  induction l with
  | nil => cases h
  | cons p rest ih =>
    obtain ⟨k, b⟩ := p
    cases hbeq : a == k with
    | true =>
      simp only [List.lookup_cons, hbeq] at h
      cases h
      have hak : a = k := eq_of_beq hbeq
      subst hak
      exact List.mem_cons_self _ _
    | false =>
      simp only [List.lookup_cons, hbeq] at h
      exact List.mem_cons_of_mem _ (ih h)

/-- Every key of the dictionary produced by `as_dict` is the name of one of
the row's columns. -/
theorem as_dict_key_mem (row : List (DbColumn × Option PyVal)) (q : String × DictEntry)
    (hq : q ∈ as_dict row) : q.1 ∈ row.map (fun p => p.1.name) := by
  induction row with
  | nil => cases hq
  | cons p rest ih =>
    rw [List.map_cons]
    cases hv : p.2 with
    | none =>
      simp only [as_dict, List.filterMap_cons, hv] at hq
      exact List.mem_cons_of_mem _ (ih hq)
    | some w =>
      simp only [as_dict, List.filterMap_cons, hv, Option.map_some] at hq
      rcases List.mem_cons.mp hq with rfl | hq2
      · exact List.mem_cons_self _ _
      · exact List.mem_cons_of_mem _ (ih hq2)

/-- A name that is not among a row's column names is absent from its
`as_dict` output. -/
theorem as_dict_lookup_none (row : List (DbColumn × Option PyVal)) (name : String)
    (h : name ∉ row.map (fun p => p.1.name)) :
    (as_dict row).lookup name = none := by
  cases hl : (as_dict row).lookup name with
  | none => rfl
  | some e =>
    exfalso
    have hmem : (name, e) ∈ as_dict row := mem_of_lookup_some (as_dict row) name e hl
    exact h (as_dict_key_mem row (name, e) hmem)

/-- C10: in the dictionary produced by the shared projection `DbBase.as_dict`,
a column's name is a key exactly when its stored value is non-null, the value
of a JSON-typed column is passed through unchanged, and the value of every
other column is its Python `str()` form; a null-valued column is silently
absent. -/
theorem as_dict_nonnull_projection (row : List (DbColumn × Option PyVal))
    (hnd : (row.map (fun p => p.1.name)).Nodup)
    (c : DbColumn) (v : Option PyVal) (hmem : (c, v) ∈ row) :
    (as_dict row).lookup c.name =
      v.map (fun w =>
        if c.ctype == "JSON" then DictEntry.jsonVal w
        else DictEntry.strVal (pyStrOf w)) := by
  induction row with
  | nil => cases hmem
  | cons p rest ih =>
    rw [List.map_cons] at hnd
    obtain ⟨hfn, hndr⟩ := List.nodup_cons.mp hnd
    rcases List.mem_cons.mp hmem with heq | hmemr
    · cases heq
      cases v with
      | none =>
        simp only [as_dict, List.filterMap_cons, Option.map_none']
        exact as_dict_lookup_none rest c.name hfn
      | some w =>
        simp only [as_dict, List.filterMap_cons, Option.map_some', List.lookup_cons,
          beq_self_eq_true]
    · have hcn : c.name ∈ rest.map (fun p => p.1.name) :=
        List.mem_map_of_mem _ hmemr
      have hne : c.name ≠ p.1.name := fun h => hfn (h ▸ hcn)
      have hbeq : (c.name == p.1.name) = false := by simpa using hne
      cases hv : p.2 with
      | none =>
        simp only [as_dict, List.filterMap_cons, hv]
        exact ih hndr hmemr
      | some w =>
        simp only [as_dict, List.filterMap_cons, hv, Option.map_some', List.lookup_cons, hbeq]
        exact ih hndr hmemr

theorem as_dict_nonnull_projection_witness :
    (as_dict [(⟨"id", "VARCHAR"⟩, some (PyVal.pyStr "a")),
              (⟨"deleted_at", "DATETIME"⟩, none)]).lookup "deleted_at" = none := by
  have h := as_dict_nonnull_projection
    [(⟨"id", "VARCHAR"⟩, some (PyVal.pyStr "a")), (⟨"deleted_at", "DATETIME"⟩, none)]
    (by decide) ⟨"deleted_at", "DATETIME"⟩ none (by decide)
  simpa using h

/-! ## Sortedness of the insertion sort (for the list-ordering claims) -/

theorem mem_insertLe {le : α → α → Bool} {x a : α} {l : List α} :
    x ∈ insertLe le a l ↔ x = a ∨ x ∈ l := by
  induction l with
  | nil => simp [insertLe]
  | cons b bs ih =>
    by_cases h : le a b = true
    · simp [insertLe, h]
    · simp only [insertLe, if_neg h, List.mem_cons, ih]
      tauto

theorem mem_sortLe {le : α → α → Bool} {x : α} {l : List α} :
    x ∈ sortLe le l ↔ x ∈ l := by
  induction l with
  | nil => simp [sortLe]
  | cons a as ih => simp [sortLe, mem_insertLe, ih]

theorem length_insertLe (le : α → α → Bool) (a : α) (l : List α) :
    (insertLe le a l).length = l.length + 1 := by
  induction l with
  | nil => rfl
  | cons b bs ih =>
    by_cases h : le a b = true
    · simp [insertLe, h]
    · simp [insertLe, h, ih]

theorem length_sortLe (le : α → α → Bool) (l : List α) :
    (sortLe le l).length = l.length := by
  induction l with
  | nil => rfl
  | cons a as ih => simp [sortLe, length_insertLe, ih]

theorem pairwise_insertLe {le : α → α → Bool}
    (htot : ∀ a b, le a b = true ∨ le b a = true)
    (htrans : ∀ a b c, le a b = true → le b c = true → le a c = true)
    (a : α) (l : List α) (hl : l.Pairwise (fun x y => le x y = true)) :
    (insertLe le a l).Pairwise (fun x y => le x y = true) := by
  induction l with
  | nil => simp [insertLe]
  | cons b bs ih =>
    obtain ⟨hb, hbs⟩ := List.pairwise_cons.mp hl
    by_cases h : le a b = true
    · rw [insertLe, if_pos h]
      refine List.pairwise_cons.mpr ⟨?_, hl⟩
      intro x hx
      rcases List.mem_cons.mp hx with rfl | hx2
      · exact h
      · exact htrans a b x h (hb x hx2)
    · rw [insertLe, if_neg h]
      refine List.pairwise_cons.mpr ⟨?_, ih hbs⟩
      intro x hx
      rcases mem_insertLe.mp hx with heq | hx2
      · subst heq
        rcases htot x b with hab | hba
        · exact absurd hab h
        · exact hba
      · exact hb x hx2

theorem pairwise_sortLe {le : α → α → Bool}
    (htot : ∀ a b, le a b = true ∨ le b a = true)
    (htrans : ∀ a b c, le a b = true → le b c = true → le a c = true)
    (l : List α) : (sortLe le l).Pairwise (fun x y => le x y = true) := by
  induction l with
  | nil => exact List.Pairwise.nil
  | cons a as ih => exact pairwise_insertLe htot htrans a (sortLe le as) ih

theorem appLe_iff (u : String) (a b : AppRecord) :
    appLe u a b = true ↔
      (appRank u a < appRank u b ∨
        (appRank u a = appRank u b ∧ b.updated_at ≤ a.updated_at)) := by
  simp [appLe]

theorem appLe_total (u : String) (a b : AppRecord) :
    appLe u a b = true ∨ appLe u b a = true := by
  rw [appLe_iff, appLe_iff]
  omega

theorem appLe_trans (u : String) (a b c : AppRecord) :
    appLe u a b = true → appLe u b c = true → appLe u a c = true := by
  rw [appLe_iff, appLe_iff, appLe_iff]
  omega

theorem fileLe_total (a b : FileRecord) : fileLe a b = true ∨ fileLe b a = true := by
  simp [fileLe]
  omega

theorem fileLe_trans (a b c : FileRecord) :
    fileLe a b = true → fileLe b c = true → fileLe a c = true := by
  simp [fileLe]
  omega

theorem get_app_list_fst (u : String) (p : AppListParams) (store : List AppRecord) :
    (get_app_list u p store).1 =
      ((sortLe (appLe u) (store.filter (appQueryMatch u p))).drop
        ((p.page - 1) * p.size)).take p.size := rfl

theorem get_uploaded_files_fst (u : String) (p : FileListParams)
    (store : List FileRecord) :
    (get_uploaded_files u p store).1 =
      ((sortLe fileLe (store.filter (fileQueryMatch u p))).drop
        ((p.page - 1) * p.size)).take p.size := rfl

/-- C8: in every application-list response, every record created by the
caller precedes every record created by someone else, and two records in the
same ownership group appear in non-increasing `updated_at` order. -/
theorem app_list_own_first_then_recent (u : String) (p : AppListParams)
    (store : List AppRecord) (i j : Nat) (a b : AppRecord) (hij : i < j)
    (ha : (get_app_list u p store).1.get? i = some a)
    (hb : (get_app_list u p store).1.get? j = some b) :
    (b.created_by = u → a.created_by = u) ∧
    ((a.created_by = u ↔ b.created_by = u) → b.updated_at ≤ a.updated_at) := by
  have hpw : ((get_app_list u p store).1).Pairwise (fun x y => appLe u x y = true) := by
    have hs : (sortLe (appLe u) (store.filter (appQueryMatch u p))).Pairwise
        (fun x y => appLe u x y = true) :=
      pairwise_sortLe (appLe_total u) (appLe_trans u) _
    rw [get_app_list_fst]
    exact List.Pairwise.sublist
      ((List.take_sublist _ _).trans (List.drop_sublist _ _)) hs
  obtain ⟨hi2, hgi⟩ := List.get?_eq_some.mp ha
  obtain ⟨hj2, hgj⟩ := List.get?_eq_some.mp hb
  have hrel : appLe u a b = true := by
    have h := List.pairwise_iff_get.mp hpw ⟨i, hi2⟩ ⟨j, hj2⟩ (by simpa using hij)
    rw [hgi, hgj] at h
    exact h
  rw [appLe_iff] at hrel
  have hra : appRank u a = 1 ∨ appRank u a = 2 := by
    unfold appRank
    split <;> simp
  constructor
  · intro hbu
    have hrb : appRank u b = 1 := by simp [appRank, hbu]
    by_contra hau
    have hra2 : appRank u a = 2 := by simp [appRank, hau]
    omega
  · intro hiff
    have hr : appRank u a = appRank u b := by
      unfold appRank
      by_cases h1 : a.created_by = u
      · have h2 := hiff.mp h1
        simp [h1, h2]
      · have h2 : ¬b.created_by = u := fun hb2 => h1 (hiff.mpr hb2)
        simp [h1, h2]
    omega

theorem app_list_own_first_then_recent_witness :
    (("v" : String) = "u" → ("u" : String) = "u") ∧
    ((("u" : String) = "u" ↔ ("v" : String) = "u") → 5 ≤ 1) := by
  have h := app_list_own_first_then_recent "u" ⟨1, 20, none, none, none⟩
    [⟨"1", "A", "u", none, none, false, none, 0, 1, none⟩,
     ⟨"2", "B", "v", none, none, true, none, 0, 5, none⟩]
    0 1
    ⟨"1", "A", "u", none, none, false, none, 0, 1, none⟩
    ⟨"2", "B", "v", none, none, true, none, 0, 5, none⟩
    (by decide) (by decide) (by decide)
  exact h

/-- C5: an application or file record is served by list and load exactly when
it is not soft-deleted and the requester is its creator/uploader or it is
published.  Lists are sound for arbitrary parameters (in particular a
soft-deleted record never appears), and exact once the optional filters are
absent and the page covers the store; load is exact on stores with distinct
ids. -/
theorem visibility_rule (u : String) (store : List AppRecord)
    (fstore : List FileRecord) :
    (∀ (p : AppListParams) (a : AppRecord), a ∈ (get_app_list u p store).1 →
      a ∈ store ∧ visibleApp u a = true) ∧
    (∀ a : AppRecord,
      a ∈ (get_app_list u ⟨1, store.length + 1, none, none, none⟩ store).1 ↔
        a ∈ store ∧ visibleApp u a = true) ∧
    (∀ (appId : String) (a : AppRecord),
      get_application u store appId = LoadAppResult.ok a →
        a ∈ store ∧ a.id = appId ∧ visibleApp u a = true) ∧
    ((store.map AppRecord.id).Nodup →
      ∀ (appId : String) (a : AppRecord), a ∈ store → a.id = appId →
        visibleApp u a = true → get_application u store appId = LoadAppResult.ok a) ∧
    (∀ (p : FileListParams) (f : FileRecord), f ∈ (get_uploaded_files u p fstore).1 →
      f ∈ fstore ∧ visibleFile u f = true) ∧
    (∀ f : FileRecord,
      f ∈ (get_uploaded_files u ⟨1, fstore.length + 1, none⟩ fstore).1 ↔
        f ∈ fstore ∧ visibleFile u f = true) ∧
    (∀ (fileId : String) (f : FileRecord) (sc : ServedContent),
      load_file u fstore fileId = LoadFileResult.ok f sc →
        f ∈ fstore ∧ f.id = fileId ∧ visibleFile u f = true) ∧
    ((fstore.map FileRecord.id).Nodup →
      ∀ (fileId : String) (f : FileRecord), f ∈ fstore → f.id = fileId →
        visibleFile u f = true →
        ∃ sc, load_file u fstore fileId = LoadFileResult.ok f sc) := by
  refine ⟨?_, ?_, ?_, ?_, ?_, ?_, ?_, ?_⟩
  · intro p a ha
    rw [get_app_list_fst] at ha
    have ha2 : a ∈ sortLe (appLe u) (store.filter (appQueryMatch u p)) :=
      List.Sublist.mem ha ((List.take_sublist _ _).trans (List.drop_sublist _ _))
    have ha3 := List.mem_filter.mp (mem_sortLe.mp ha2)
    refine ⟨ha3.1, ?_⟩
    have hq := ha3.2
    simp only [appQueryMatch, Bool.and_eq_true] at hq
    exact hq.1.1.1
  · intro a
    rw [get_app_list_fst]
    have hlen : (sortLe (appLe u)
        (store.filter (appQueryMatch u ⟨1, store.length + 1, none, none, none⟩))).length ≤
        store.length + 1 := by
      rw [length_sortLe]
      exact Nat.le_succ_of_le (List.length_filter_le _ _)
    simp only [Nat.sub_self, Nat.zero_mul, List.drop_zero,
      List.take_of_length_le hlen, mem_sortLe, List.mem_filter]
    constructor
    · rintro ⟨hmem, hq⟩
      refine ⟨hmem, ?_⟩
      simp only [appQueryMatch, Bool.and_eq_true] at hq
      exact hq.1.1.1
    · rintro ⟨hmem, hv⟩
      refine ⟨hmem, ?_⟩
      simp [appQueryMatch, hv]
  · intro appId a hok
    unfold get_application at hok
    cases hfind : store.find? (fun b => b.id == appId && visibleApp u b) with
    | none => rw [hfind] at hok; cases hok
    | some b =>
      rw [hfind] at hok
      cases hok
      have hp := List.find?_some hfind
      simp only [Bool.and_eq_true, beq_iff_eq] at hp
      exact ⟨List.mem_of_find?_eq_some hfind, hp.1, hp.2⟩
  · intro hnd appId a hmem hid hv
    have hfind : store.find? (fun b => b.id == appId && visibleApp u b) = some a := by
      apply find?_of_nodup_key AppRecord.id appId _ _ store hnd a hmem
      · simp [hid, hv]
      · intro b hb
        simp only [Bool.and_eq_true, beq_iff_eq] at hb
        exact hb.1
    unfold get_application
    rw [hfind]
  · intro p f hf
    rw [get_uploaded_files_fst] at hf
    have hf2 : f ∈ sortLe fileLe (fstore.filter (fileQueryMatch u p)) :=
      List.Sublist.mem hf ((List.take_sublist _ _).trans (List.drop_sublist _ _))
    have hf3 := List.mem_filter.mp (mem_sortLe.mp hf2)
    refine ⟨hf3.1, ?_⟩
    have hq := hf3.2
    simp only [fileQueryMatch, Bool.and_eq_true] at hq
    exact hq.1
  · intro f
    rw [get_uploaded_files_fst]
    have hlen : (sortLe fileLe
        (fstore.filter (fileQueryMatch u ⟨1, fstore.length + 1, none⟩))).length ≤
        fstore.length + 1 := by
      rw [length_sortLe]
      exact Nat.le_succ_of_le (List.length_filter_le _ _)
    simp only [Nat.sub_self, Nat.zero_mul, List.drop_zero,
      List.take_of_length_le hlen, mem_sortLe, List.mem_filter]
    constructor
    · rintro ⟨hmem, hq⟩
      refine ⟨hmem, ?_⟩
      simp only [fileQueryMatch, Bool.and_eq_true] at hq
      exact hq.1
    · rintro ⟨hmem, hv⟩
      refine ⟨hmem, ?_⟩
      simp [fileQueryMatch, hv]
  · intro fileId f sc hok
    unfold load_file at hok
    cases hfind : fstore.find? (fun g => g.id == fileId && visibleFile u g) with
    | none => rw [hfind] at hok; cases hok
    | some g =>
      simp only [hfind] at hok
      have hp := List.find?_some hfind
      simp only [Bool.and_eq_true, beq_iff_eq] at hp
      have hmem := List.mem_of_find?_eq_some hfind
      by_cases ht : (g.type == "Table") = true
      · rw [if_pos ht] at hok
        cases hok
        exact ⟨hmem, hp.1, hp.2⟩
      · rw [if_neg ht] at hok
        cases hok
        exact ⟨hmem, hp.1, hp.2⟩
  · intro hnd fileId f hmem hid hv
    have hfind : fstore.find? (fun g => g.id == fileId && visibleFile u g) = some f := by
      apply find?_of_nodup_key FileRecord.id fileId _ _ fstore hnd f hmem
      · simp [hid, hv]
      · intro b hb
        simp only [Bool.and_eq_true, beq_iff_eq] at hb
        exact hb.1
    unfold load_file
    simp only [hfind]
    by_cases ht : (f.type == "Table") = true
    · rw [if_pos ht]
      exact ⟨_, rfl⟩
    · rw [if_neg ht]
      exact ⟨_, rfl⟩

theorem visibility_rule_witness :
    (⟨"1", "A", "u", none, none, false, none, 0, 1, none⟩ : AppRecord) ∈
      (get_app_list "u" ⟨1, 2, none, none, none⟩
        [⟨"1", "A", "u", none, none, false, none, 0, 1, none⟩]).1 := by
  have h := (visibility_rule "u"
    [⟨"1", "A", "u", none, none, false, none, 0, 1, none⟩] []).2.1
    ⟨"1", "A", "u", none, none, false, none, 0, 1, none⟩
  exact h.mpr ⟨by decide, by decide⟩

/-! ## Lookup lemmas for the columnar round trip (C9) -/

/-- Looking up the `j`-th header in a header/cells zip returns the `j`-th
cell (also when the row is short: both sides are then `none`), provided the
headers are distinct. -/
theorem lookup_zip_of_nodup :
    ∀ (hs cs : List String) (j : Nat) (h : String),
    hs.get? j = some h → hs.Nodup → List.lookup h (hs.zip cs) = cs.get? j := by
  intro hs
  induction hs with
  | nil =>
    intro cs j h hj _
    cases hj
  | cons a t ih =>
    intro cs j h hj hnd
    obtain ⟨hna, hndt⟩ := List.nodup_cons.mp hnd
    cases cs with
    | nil => simp [List.zip_nil_right]
    | cons c cs2 =>
      cases j with
      | zero =>
        injection hj with hh
        subst hh
        simp [List.lookup_cons]
      | succ j2 =>
        have hmem : h ∈ t := by
          have hj2 : t.get? j2 = some h := hj
          obtain ⟨hlt, hget⟩ := List.get?_eq_some.mp hj2
          exact hget ▸ List.get_mem t j2 hlt
        have hne : (h == a) = false := by
          rw [beq_eq_false_iff_ne]
          intro he
          exact hna (he ▸ hmem)
        simp only [List.zip_cons_cons, List.lookup_cons, hne]
        exact ih cs2 j2 h hj hndt

/-- Looking up the `j`-th key in a keyed map built over distinct keys returns
the generated value of that key. -/
theorem lookup_map_key {β : Type} (g : String → β) :
    ∀ (hs : List String) (j : Nat) (h : String),
    hs.get? j = some h → hs.Nodup →
    List.lookup h (hs.map (fun x => (x, g x))) = some (g h) := by
  intro hs
  induction hs with
  | nil =>
    intro j h hj _
    cases hj
  | cons a t ih =>
    intro j h hj hnd
    obtain ⟨hna, hndt⟩ := List.nodup_cons.mp hnd
    cases j with
    | zero =>
      injection hj with hh
      subst hh
      simp [List.lookup_cons]
    | succ j2 =>
      have hmem : h ∈ t := by
        have hj2 : t.get? j2 = some h := hj
        obtain ⟨hlt, hget⟩ := List.get?_eq_some.mp hj2
        exact hget ▸ List.get_mem t j2 hlt
      have hne : (h == a) = false := by
        rw [beq_eq_false_iff_ne]
        intro he
        exact hna (he ▸ hmem)
      simp only [List.map_cons, List.lookup_cons, hne]
      exact ih j2 h hj hndt

/-- Looking up row index `i` in an enumerated association list returns the
`i`-th element's image. -/
theorem lookup_enumFrom_map {α β : Type} (f : α → β) :
    ∀ (l : List α) (k i : Nat),
    List.lookup (k + i) ((List.enumFrom k l).map (fun p => (p.1, f p.2))) =
      (l.get? i).map f := by
  intro l
  induction l with
  | nil => intro k i; rfl
  | cons a t ih =>
    intro k i
    cases i with
    | zero => simp [List.enumFrom, List.lookup_cons]
    | succ i2 =>
      have hne : ((k + (i2 + 1) : Nat) == k) = false := by
        rw [beq_eq_false_iff_ne]
        omega
      simp only [List.enumFrom, List.map_cons, List.lookup_cons, hne]
      have hkk : k + (i2 + 1) = (k + 1) + i2 := by omega
      rw [hkk]
      exact ih (k + 1) i2

theorem lookup_enum_map {α β : Type} (f : α → β) (l : List α) (i : Nat) :
    List.lookup i ((l.enum).map (fun p => (p.1, f p.2))) = (l.get? i).map f := by
  have h := lookup_enumFrom_map f l 0 i
  simpa [List.enum] using h

theorem to_columns_cons (r0 : List (String × String))
    (rest : List (List (String × String))) :
    to_columns (r0 :: rest) =
      (r0.map Prod.fst).map
        (fun h => (h, ((r0 :: rest).enum).map (fun p => (p.1, List.lookup h p.2)))) := rfl

/-- The columnar serialization served by `load_file` recovers every cell of a
rectangular delimiter-separated content with distinct headers. -/
theorem columnCell_read_csv (content header : String) (rows : List String)
    (delim : Char) (hlines : csvLines content = header :: rows)
    (hnd : (splitStr header delim).Nodup)
    (hrect : ∀ row ∈ rows,
      (splitStr row delim).length = (splitStr header delim).length)
    (i j : Nat) (row h : String)
    (hrow : rows.get? i = some row)
    (hh : (splitStr header delim).get? j = some h) :
    columnCell (to_columns (read_csv content delim)) h i =
      some ((splitStr row delim).get? j) := by
  cases rows with
  | nil => cases hrow
  | cons row0 rt =>
    have hread : read_csv content delim =
        (splitStr header delim).zip (splitStr row0 delim) ::
          rt.map (fun r => (splitStr header delim).zip (splitStr r delim)) := by
      simp only [read_csv, hlines, List.map_cons]
    have hlen0 : (splitStr header delim).length ≤ (splitStr row0 delim).length :=
      le_of_eq (hrect row0 (List.mem_cons_self _ _)).symm
    have hkeys : (((splitStr header delim).zip (splitStr row0 delim)).map Prod.fst) =
        splitStr header delim := List.map_fst_zip _ _ hlen0
    rw [hread, to_columns_cons, hkeys]
    unfold columnCell
    rw [lookup_map_key
      (fun h2 =>
        (((splitStr header delim).zip (splitStr row0 delim) ::
          rt.map (fun r => (splitStr header delim).zip (splitStr r delim))).enum).map
            (fun p => (p.1, List.lookup h2 p.2)))
      (splitStr header delim) j h hh hnd]
    rw [Option.some_bind]
    rw [lookup_enum_map (fun rec => List.lookup h rec)]
    have hget : ((splitStr header delim).zip (splitStr row0 delim) ::
        rt.map (fun r => (splitStr header delim).zip (splitStr r delim))).get? i =
        some ((splitStr header delim).zip (splitStr row delim)) := by
      have hmap : ((row0 :: rt).map
          (fun r => (splitStr header delim).zip (splitStr r delim))).get? i =
          some ((splitStr header delim).zip (splitStr row delim)) := by
        rw [List.get?_map, hrow, Option.map_some']
      simpa using hmap
    rw [hget, Option.map_some']
    rw [lookup_zip_of_nodup (splitStr header delim) (splitStr row delim) j h hh hnd]

/-- C9: uploading a rectangular CSV with a header row of distinct column
names (accepted by the upload validation) stores it as a Table, and loading
it back serves the columnar re-serialization in which every column/row entry
is exactly the corresponding cell of the original file: parse-at-upload
followed by columnar re-serialization at load is a round trip on the
tabular data. -/
theorem csv_upload_load_roundtrip (u fileId : String) (now : Nat)
    (content header : String) (rows : List String)
    (hnotab : strContains (firstLine content) '\t' = false)
    (hcomma : strContains (firstLine content) ',' = true)
    (hlines : csvLines content = header :: rows)
    (hnd : (splitStr header ',').Nodup)
    (hrect : ∀ row ∈ rows, (splitStr row ',').length = (splitStr header ',').length)
    (hsize : content.utf8ByteSize ≤ 1024 * 1024 * 15)
    (hcount : rows.length ≤ 3000) :
    upload_file (some u) fileId now ⟨true, "data.csv", content⟩ [] =
      (UploadStatus.ok fileId,
       [⟨fileId, "data.csv", "Table", u, now, content.utf8ByteSize,
         FileContent.table (read_csv content ','), content, false, none⟩]) ∧
    load_file u
      [⟨fileId, "data.csv", "Table", u, now, content.utf8ByteSize,
        FileContent.table (read_csv content ','), content, false, none⟩] fileId =
      LoadFileResult.ok
        ⟨fileId, "data.csv", "Table", u, now, content.utf8ByteSize,
          FileContent.table (read_csv content ','), content, false, none⟩
        (ServedContent.columns (to_columns (read_csv content ','))) ∧
    (∀ (i j : Nat) (row h : String),
      rows.get? i = some row → (splitStr header ',').get? j = some h →
      columnCell (to_columns (read_csv content ',')) h i =
        some ((splitStr row ',').get? j) ∧
      ((splitStr row ',').get? j).isSome = true) := by
  have hdet : determine_file_type_and_content content =
      ("Table", FileContent.table (read_csv content ','),
        (read_csv content ',').length) := by
    unfold determine_file_type_and_content
    dsimp only
    rw [hnotab, hcomma]
    simp
  have hcnt : (read_csv content ',').length = rows.length := by
    simp only [read_csv, hlines]
    simp
  have hallow : allowed_file "data.csv" = true := by decide
  have h1 : (content.utf8ByteSize > 1024 * 1024 * 15) = False := eq_false (by omega)
  have h2 : ((read_csv content ',').length > 3000) = False :=
    eq_false (by rw [hcnt]; omega)
  refine ⟨?_, ?_, ?_⟩
  · simp only [upload_file, hallow, hdet, h1, h2]
    simp [secure_filename]
  · simp [load_file, visibleFile, FileContent.recordsOf]
  · intro i j row h hrow hh
    refine ⟨columnCell_read_csv content header rows ',' hlines hnd hrect i j row h hrow hh, ?_⟩
    obtain ⟨hjlt, hg1⟩ := List.get?_eq_some.mp hh
    have hrmem : row ∈ rows := by
      obtain ⟨hlt, hget⟩ := List.get?_eq_some.mp hrow
      exact hget ▸ List.get_mem rows i hlt
    have hlen : j < (splitStr row ',').length := by
      rw [hrect row hrmem]
      exact hjlt
    cases hg : (splitStr row ',').get? j with
    | none =>
      have := List.get?_eq_none.mp hg
      omega
    | some v => rfl

theorem csv_upload_load_roundtrip_witness :
    columnCell (to_columns (read_csv "a,b\n1,2" ',')) "b" 0 =
      some ((splitStr "1,2" ',').get? 1) := by
  have h := (csv_upload_load_roundtrip "u" "fid" 0 "a,b\n1,2" "a,b" ["1,2"]
    (by decide) (by decide) (by decide) (by decide)
    (by decide) (by decide) (by decide)).2.2 0 1 "1,2" "b" (by decide) (by decide)
  exact h.1
